import Mathlib

/-!
Verification of the log-record transformation and file-retention core of
`py_ia_rom_logger` against its natural-language specification.

The Python source is shallowly embedded: pure methods become Lean
functions, the filesystem state touched by the retention service becomes an
explicit list of directory entries, object graphs handled by the safe
serializer become an explicit heap of object identities, and the recursion
budget of the Python interpreter becomes an explicit fuel parameter (a
computation that returns `none` for every fuel models a `RecursionError` /
non-termination).
-/

/-! ## FileManagerService (src/py_ia_rom_logger/services/file_manager_service.py)

A directory is a list of `FileEntry` (file name and last-modified time).
`st_mtime` is a float in Python; only its ordering is ever used, so it is
embedded as a natural number.  A missing directory is `none`.  `unlinkFails`
models which `Path.unlink` calls raise `OSError` (locked or vanished files).
-/

structure FileEntry where
  name : String
  mtime : Nat
deriving DecidableEq, Repr

/-- `str.endswith` on the underlying characters. -/
def pyEndsWith (s suffix : String) : Bool :=
  suffix.data.isSuffixOf s.data

/-- `BACKUP_LOG_DIR.glob("*.log")`: the `*.log` files of the directory, in
enumeration order. -/
def globLogs (entries : List FileEntry) : List FileEntry :=
  entries.filter (fun f => pyEndsWith f.name ".log")

/-- The sort key `key=lambda f: f.stat().st_mtime` of `cleanup_old_files`. -/
def mtimeLE (a b : FileEntry) : Prop := a.mtime ≤ b.mtime

instance : DecidableRel mtimeLE := fun a b => Nat.decLe a.mtime b.mtime

instance : IsTotal FileEntry mtimeLE := ⟨fun a b => Nat.le_total a.mtime b.mtime⟩

instance : IsTrans FileEntry mtimeLE := ⟨fun _ _ _ h h2 => Nat.le_trans h h2⟩

/-- `FileManagerService._delete_files(files, qtd)`: unlink the first `qtd`
paths of `files`, silently skipping any path whose `unlink` raises
`OSError`.  Returns the set of names actually deleted. -/
def delete_files (files : List FileEntry) (qtd : Nat) (unlinkFails : String → Bool) :
    List FileEntry :=
  (files.take qtd).filter (fun f => !unlinkFails f.name)

/-- `FileManagerService.cleanup_old_files` with `maxFiles = SETTINGS.MAX_FILES`.
Returns the directory contents after the call (`none` = directory missing,
in which case the method returns immediately).  Python's `sorted` is a
stable sort, embedded as `List.insertionSort`; ties in `st_mtime` keep glob
enumeration order in both. -/
def cleanup_old_files (dir : Option (List FileEntry)) (maxFiles : Nat)
    (unlinkFails : String → Bool) : Option (List FileEntry) :=
  match dir with
  | none => none
  | some entries =>
    let files := List.insertionSort mtimeLE (globLogs entries)
    if maxFiles ≤ files.length then
      let files_to_remove := files.length - maxFiles + 1
      let deleted := delete_files files files_to_remove unlinkFails
      some (entries.filter (fun e => !(deleted.any (fun d => d.name == e.name))))
    else
      some entries

/-! ## LogModel.remove_placeholders (src/py_ia_rom_logger/models/_log_model.py)

`_PLACEHOLDER_RE` is the verbose-mode pattern

    % (?:\([^)]+\))? [-+#0\s]* (?:\d+|\*)? (?:\.(?:\d+|\*))? [bcdeEfFgGnosxXrs%]

and `remove_placeholders` is `_PLACEHOLDER_RE.sub("", text).strip()`.
The embedding implements this one fixed pattern directly: at each `%` the
six components are tried in pattern order, each quantifier greedily with
backtracking (longest first, `?` present before absent, alternatives left
to right), exactly as Python's backtracking engine resolves them. -/

/-- The final type-specifier class `[bcdeEfFgGnosxXrs%]` (source order). -/
def typeSpecChars : List Char :=
  ['b', 'c', 'd', 'e', 'E', 'f', 'F', 'g', 'G', 'n', 'o', 's', 'x', 'X', 'r', 's', '%']

/-- The flag class `[-+#0\s]`; `\s` is Python whitespace, embedded as
`Char.isWhitespace` (the claims only exercise ASCII whitespace). -/
def isFlagChar (c : Char) : Bool :=
  c == '-' || c == '+' || c == '#' || c == '0' || c.isWhitespace

/-- Length of the longest prefix whose characters all satisfy `p`. -/
def countLeading (p : Char → Bool) : List Char → Nat
  | [] => 0
  | c :: rest => if p c then countLeading p rest + 1 else 0

/-- Component `[bcdeEfFgGnosxXrs%]`: match one type-specifier character. -/
def matchTypeSpec : List Char → Option Nat
  | c :: _ => if c ∈ typeSpecChars then some 1 else none
  | [] => none

/-- Components `(?:\.(?:\d+|\*))? [bcdeEfFgGnosxXrs%]`: optional precision
(tried present first: `\d+` greedily longest first, then `*`), then the
type specifier.  Returns the total number of characters consumed. -/
def matchPrecision (cs : List Char) : Option Nat :=
  (match cs with
   | '.' :: rest =>
     let d := countLeading Char.isDigit rest
     ((List.range d).findSome? (fun i =>
        let k := d - i
        (matchTypeSpec (rest.drop k)).map (fun t => 1 + k + t))) <|>
     (match rest with
      | '*' :: rest2 => (matchTypeSpec rest2).map (fun t => 2 + t)
      | _ => none)
   | _ => none) <|>
  matchTypeSpec cs

/-- Components `(?:\d+|\*)?` onwards: optional width (digits greedily
longest first, then `*`, then absent), then precision and type. -/
def matchWidth (cs : List Char) : Option Nat :=
  (let d := countLeading Char.isDigit cs
   (List.range d).findSome? (fun i =>
     let k := d - i
     (matchPrecision (cs.drop k)).map (fun t => k + t))) <|>
  (match cs with
   | '*' :: rest => (matchPrecision rest).map (fun t => 1 + t)
   | _ => none) <|>
  matchPrecision cs

/-- Components `[-+#0\s]*` onwards: greedy flags with backtracking (longest
first down to zero), then width, precision and type. -/
def matchFlags (cs : List Char) : Option Nat :=
  let f := countLeading isFlagChar cs
  (List.range (f + 1)).findSome? (fun i =>
    let j := f - i
    (matchWidth (cs.drop j)).map (fun t => j + t))

/-- The whole pattern after the leading `%`: optional named group
`(?:\([^)]+\))?` (present first — `[^)]+` necessarily stops at the first
`)`), then flags, width, precision and type specifier. -/
def matchAfterPercent (cs : List Char) : Option Nat :=
  (match cs with
   | '(' :: rest =>
     match rest.findIdx? (fun c => c == ')') with
     | some i =>
       if 1 ≤ i then (matchFlags (rest.drop (i + 1))).map (fun t => 2 + i + t)
       else none
     | none => none
   | _ => none) <|>
  matchFlags cs

/-- `_PLACEHOLDER_RE.sub("", ·)`: delete every non-overlapping leftmost
match.  The pattern starts with the literal `%`, so matches can only begin
at a `%`.  The scan is driven by a fuel that starts at the list length and
strictly dominates it throughout, so the fuel-exhausted case is
unreachable; fuel keeps the recursion structural (hence computable by the
kernel). -/
def placeholderSubAux : Nat → List Char → List Char
  | 0, _ => []
  | _ + 1, [] => []
  | fuel + 1, '%' :: rest =>
    (match matchAfterPercent rest with
     | some k => placeholderSubAux fuel (rest.drop k)
     | none => '%' :: placeholderSubAux fuel rest)
  | fuel + 1, c :: rest => c :: placeholderSubAux fuel rest

/-- `_PLACEHOLDER_RE.sub("", ·)` on a whole character list. -/
def placeholderSub (cs : List Char) : List Char :=
  placeholderSubAux cs.length cs

/-- `str.strip()`: drop leading and trailing whitespace. -/
def pyStrip (cs : List Char) : List Char :=
  ((cs.dropWhile Char.isWhitespace).reverse.dropWhile Char.isWhitespace).reverse

/-- `LogModel.remove_placeholders`: `_PLACEHOLDER_RE.sub("", text).strip()`. -/
def remove_placeholders (text : String) : String :=
  (pyStrip (placeholderSub text.data)).asString

example : remove_placeholders "Processing user %s" = "Processing user" := by rfl
example : remove_placeholders "User %s with ID %d" = "User  with ID" := by rfl
example : remove_placeholders "Field %(name)s value %.2f" = "Field  value" := by rfl
example : remove_placeholders "Status: %s | Progress: %d of %d" = "Status:  | Progress:  of" := by rfl
example : remove_placeholders "No placeholders here" = "No placeholders here" := by rfl

/-! ## FileLogModel.strip_emojis (src/py_ia_rom_logger/models/file_log_model.py)

`_EMOJI_RE` is the character-class pattern
`[\U0001F600-\U0001F64F \U0001F300-\U0001F5FF \U0001F680-\U0001F6FF
\U0001F1E0-\U0001F1FF ☀-⛿ ✀-➿]+` and `strip_emojis`
is `_EMOJI_RE.sub("", text) if text else ""`. -/

/-- Membership in the `_EMOJI_RE` character class (the six ranges of the
source, in source order). -/
def inEmojiClass (c : Char) : Bool :=
  (0x1F600 ≤ c.toNat && c.toNat ≤ 0x1F64F) ||
  (0x1F300 ≤ c.toNat && c.toNat ≤ 0x1F5FF) ||
  (0x1F680 ≤ c.toNat && c.toNat ≤ 0x1F6FF) ||
  (0x1F1E0 ≤ c.toNat && c.toNat ≤ 0x1F1FF) ||
  (0x2600 ≤ c.toNat && c.toNat ≤ 0x26FF) ||
  (0x2700 ≤ c.toNat && c.toNat ≤ 0x27BF)

/-- `_EMOJI_RE.sub("", ·)`: deleting every maximal run of class characters
deletes exactly the class characters. -/
def emojiSub : List Char → List Char
  | [] => []
  | c :: rest => if inEmojiClass c then emojiSub rest else c :: emojiSub rest

/-- `FileLogModel.strip_emojis`; the argument is `Option String` because the
method is exercised with `None` (falsy, like the empty string). -/
def strip_emojis (text : Option String) : String :=
  match text with
  | none => ""
  | some s => if s = "" then "" else (emojiSub s.data).asString

example : strip_emojis (some "User processed! 😊✅") = "User processed! " := by rfl
example : strip_emojis none = "" := by rfl
example : strip_emojis (some "⭐") = "⭐" := by rfl

/-! ## CompactTracebackFormatter
(src/py_ia_rom_logger/helpers/formatters/tracebacks/compact_traceback_formatter.py)

`format(exc_info)` receives `(exc_type, exc_val, tb)`.  The embedding takes
the exception type's `__name__` as `Option String` (`none` = the component
is `None`/falsy), `str(exc_val)` as `Option String` likewise, and
`traceback.extract_tb(tb)` as a list of frame summaries ordered from the
oldest caller to the failure site. -/

structure FrameSummary where
  filename : String
  lineno : Nat
  func : String
  text : Option String
deriving DecidableEq, Repr

/-- Models `os.path.relpath(filename, base_dir)` for the one case the code
relies on (a file below the base directory); other inputs are returned
whole — the claims constrain only the line structure, never the path
arithmetic of unrelated paths. -/
def relpath (filename base : String) : String :=
  let b := base.data ++ ['/']
  if b.isPrefixOf filename.data then (filename.data.drop b.length).asString
  else filename

/-- `.replace('"', r"\"").replace("'", r"\'")` — one pass is equivalent to
the two sequential passes because escaping a double quote introduces no
single quote. -/
def escapeQuotes : List Char → List Char
  | [] => []
  | c :: rest =>
    if c == '"' then '\\' :: '"' :: escapeQuotes rest
    else if c == '\x27' then '\\' :: '\x27' :: escapeQuotes rest
    else c :: escapeQuotes rest

/-- `"\n ".join(formatted)` — the non-standard newline-plus-space separator. -/
def joinNlSpace : List String → String
  | [] => ""
  | [s] => s
  | s :: rest => s ++ "\n " ++ joinNlSpace rest

structure CompactTracebackFormatter where
  max_frames : Nat
  base_dir : String
deriving Repr

/-- One line of `for filename, lineno, func, text in frames[:-1]`. -/
def compactFrameLine (f : CompactTracebackFormatter) (fr : FrameSummary) : String :=
  relpath fr.filename f.base_dir ++ ":" ++ toString fr.lineno ++ " in " ++ fr.func

/-- The final-frame line with the stripped, quote-escaped source text. -/
def compactLastLine (f : CompactTracebackFormatter) (fr : FrameSummary) : String :=
  relpath fr.filename f.base_dir ++ ":" ++ toString fr.lineno ++ "  \"" ++
    (escapeQuotes (pyStrip (fr.text.getD "").data)).asString ++ "\""

/-- `CompactTracebackFormatter.format`.  `frames[-max_frames:] if
self.max_frames else frames` keeps the last `max_frames` frames when the
limit is non-zero (falsy `0` keeps the whole stack). -/
def CompactTracebackFormatter.format (f : CompactTracebackFormatter)
    (exc_type exc_val : Option String) (tb : List FrameSummary) :
    String × String × String :=
  let exc_name := exc_type.getD ""
  let exc_msg := exc_val.getD ""
  let frames := if f.max_frames ≠ 0 then tb.drop (tb.length - f.max_frames) else tb
  let formatted := frames.dropLast.map (compactFrameLine f)
  let formatted :=
    match frames.getLast? with
    | none => formatted
    | some fr => formatted ++ [compactLastLine f fr]
  (joinNlSpace formatted, exc_name, exc_msg)

/-! ## RichFormatter.format_exception
(src/py_ia_rom_logger/helpers/formatters/console_rich_formatter.py)

`format_exception(ei)` guards: `if not ei or ei == (None, None, None)`
first, then `if not exc_type or not exc_value or not exc_traceback`, and
only then delegates to `TracebackRichFormatter.create_rich_traceback` and
its `exc_title`.  The delegate is out of this core's claims: it is carried
as opaque data in the formatter value. -/

structure TracebackRichFormatterM (α β γ : Type) where
  create_rich_traceback : α → β → γ → String
  exc_title : String

/-- `RichFormatter.format_exception`. -/
def format_exception {α β γ : Type} (fm : TracebackRichFormatterM α β γ)
    (ei : Option (Option α × Option β × Option γ)) : String × String :=
  match ei with
  | none => ("", "")
  | some (none, none, none) => ("", "")
  | some (some t, some v, some tb) => (fm.create_rich_traceback t v tb, fm.exc_title)
  | some _ => ("", "")

/-! ## LogModel.jsonable (src/py_ia_rom_logger/models/_log_model.py)

Python values form an object graph; `jsonable` guards on `id(value)`.  The
embedding makes identity explicit: a heap maps references (`id`s) to
objects, and compound objects hold references to their children.  The
mutable `_seen : set[int]` threads through the computation as an explicit
list of references, returned updated by every call (additions made inside
a subtree stay visible to later siblings, exactly like the shared mutable
set).  The interpreter's recursion limit is an explicit fuel: `none` for
every fuel models a `RecursionError`.  Python `float` values behave
identically to the other primitives in every branch and are not modelled
separately. -/

abbrev Ref := Nat

inductive PyObj where
  /-- `None`. -/
  | pyNone
  /-- A `str`. -/
  | pyStr (s : String)
  /-- An `int` (arbitrary precision in Python). -/
  | pyInt (n : Int)
  /-- A `bool`. -/
  | pyBool (b : Bool)
  /-- A dataclass instance with its named fields. -/
  | dataclass (fields : List (String × Ref))
  /-- A `Mapping`; `jsonable` preserves keys unchanged and only JSON-able
  string keys appear in the logged structures, so keys are strings. -/
  | dict (entries : List (String × Ref))
  /-- A `list` or `tuple` (any non-text `Sequence`). -/
  | seq (elems : List Ref)
  /-- Any other instance: `reprS = some s` iff `type(value).__repr__ is not
  object.__repr__` (the custom repr renders as `s`); `to_dict = none` if
  there is no callable `to_dict`, `some none` if calling it raises,
  `some (some r)` if it returns the object `r`; `attrs` is the `__dict__`
  attribute bag if the instance has one. -/
  | obj (reprS : Option String) (to_dict : Option (Option Ref))
        (attrs : Option (List (String × Ref)))

abbrev Heap := Ref → PyObj

/-- Models Python `str(value)`.  Exact on the primitives (the only fallback
strings any claim inspects); the rendering of containers, dataclasses and
default-`__repr__` instances depends on memory addresses and recursive
`repr`, which the embedding abstracts into an id-tagged token. -/
def strOf (h : Heap) (r : Ref) : String :=
  match h r with
  | .pyNone => "None"
  | .pyStr s => s
  | .pyInt n => toString n
  | .pyBool true => "True"
  | .pyBool false => "False"
  | .obj (some rs) _ _ => rs
  | _ => "<object " ++ toString r ++ ">"

/-- The JSON-compatible structures `jsonable` returns. -/
inductive JsonV where
  | null
  | str (s : String)
  | int (n : Int)
  | bool (b : Bool)
  | arr (elems : List JsonV)
  | obj (fields : List (String × JsonV))

/-- The plain structures produced by `dataclasses.asdict`: fresh `dict` and
`list` objects, plus `copy.deepcopy` results for everything else.
`deepcopy` returns atomic immutables (ints, strings, bools, `None`)
identically, which `.other` models exactly by keeping the original
reference; for compound non-container objects it builds a fresh isomorphic
copy, which the embedding identifies with its original (the only
observable difference — a repeated compound object inside one `asdict`
result serialising twice instead of hitting the cycle guard — is exercised
by no claim). -/
inductive PlainV where
  | dict (entries : List (String × PlainV))
  | seqList (elems : List PlainV)
  | other (r : Ref)

/-- `dataclasses.asdict` / its `_asdict_inner`: recurses through dataclass
fields, mappings and sequences with **no cycle guard** (a cyclic dataclass
exhausts any recursion budget), and deep-copies every other value. -/
def asdictVal (h : Heap) : Nat → Ref → Option PlainV
  | 0, _ => none
  | fuel + 1, r =>
    match h r with
    | .dataclass fields =>
      (fields.foldl (fun acc kv =>
        match acc with
        | none => none
        | some its =>
          match asdictVal h fuel kv.2 with
          | none => none
          | some p => some (its ++ [(kv.1, p)])) (some [])).map PlainV.dict
    | .dict entries =>
      (entries.foldl (fun acc kv =>
        match acc with
        | none => none
        | some its =>
          match asdictVal h fuel kv.2 with
          | none => none
          | some p => some (its ++ [(kv.1, p)])) (some [])).map PlainV.dict
    | .seq elems =>
      (elems.foldl (fun acc e =>
        match acc with
        | none => none
        | some its =>
          match asdictVal h fuel e with
          | none => none
          | some p => some (its ++ [p])) (some [])).map PlainV.seqList
    | _ => some (.other r)

/-- A value `jsonable` can be asked to serialize: a heap object, or a fresh
plain structure built by `dataclasses.asdict`. -/
inductive JVal where
  | ref (r : Ref)
  | plain (p : PlainV)

/-- Serialize the values of a key/value list left to right, threading the
seen set (the shared mutable `_seen`). -/
def foldSerEntries (go : List Ref → JVal → Option (JsonV × List Ref))
    (seen : List Ref) (kvs : List (String × JVal)) :
    Option (List (String × JsonV) × List Ref) :=
  kvs.foldl (fun acc kv =>
    match acc with
    | none => none
    | some (its, sn) =>
      match go sn kv.2 with
      | none => none
      | some (j, sn2) => some (its ++ [(kv.1, j)], sn2)) (some ([], seen))

/-- Serialize a list of elements left to right, threading the seen set. -/
def foldSerElems (go : List Ref → JVal → Option (JsonV × List Ref))
    (seen : List Ref) (vs : List JVal) : Option (List JsonV × List Ref) :=
  vs.foldl (fun acc v =>
    match acc with
    | none => none
    | some (js, sn) =>
      match go sn v with
      | none => none
      | some (j, sn2) => some (js ++ [j], sn2)) (some ([], seen))

/-- `LogModel.jsonable(value, _seen=seen)`.  The cascade, in source order:
cycle guard (`id` already seen → `str(value)`, else register the `id` —
note this happens **before** the primitive check), primitives returned
unchanged, dataclasses via `dataclasses.asdict`, mappings, sequences,
custom `__repr__`, `to_dict()` (any exception from the call or the
recursion on its result is swallowed and falls through), `__dict__`, and
the `str(value)` fallback.  Fresh `asdict` structures have fresh ids, so
the guard cannot fire on them and registering them is unobservable; the
embedding therefore serializes them directly. -/
def jsonableGo (h : Heap) : Nat → List Ref → JVal → Option (JsonV × List Ref)
  | 0, _, _ => none
  | fuel + 1, seen, .plain (.dict entries) =>
    (foldSerEntries (jsonableGo h fuel) seen
      (entries.map (fun kv => (kv.1, JVal.plain kv.2)))).map
      (fun x => (JsonV.obj x.1, x.2))
  | fuel + 1, seen, .plain (.seqList elems) =>
    (foldSerElems (jsonableGo h fuel) seen (elems.map JVal.plain)).map
      (fun x => (JsonV.arr x.1, x.2))
  | fuel + 1, seen, .plain (.other r) => jsonableGo h fuel seen (.ref r)
  | fuel + 1, seen, .ref r =>
    if r ∈ seen then some (.str (strOf h r), seen)
    else
      let sn := r :: seen
      match h r with
      | .pyNone => some (.null, sn)
      | .pyStr s => some (.str s, sn)
      | .pyInt n => some (.int n, sn)
      | .pyBool b => some (.bool b, sn)
      | .dataclass _ =>
        (match asdictVal h fuel r with
         | some (.dict entries) =>
           (foldSerEntries (jsonableGo h fuel) sn
             (entries.map (fun kv => (kv.1, JVal.plain kv.2)))).map
             (fun x => (JsonV.obj x.1, x.2))
         | _ => none)
      | .dict entries =>
        (foldSerEntries (jsonableGo h fuel) sn
          (entries.map (fun kv => (kv.1, JVal.ref kv.2)))).map
          (fun x => (JsonV.obj x.1, x.2))
      | .seq elems =>
        (foldSerElems (jsonableGo h fuel) sn (elems.map JVal.ref)).map
          (fun x => (JsonV.arr x.1, x.2))
      | .obj reprS to_dict attrs =>
        if reprS.isSome then some (.str (strOf h r), sn)
        else
          let viaDict : Option (JsonV × List Ref) :=
            match attrs with
            | some l =>
              (foldSerEntries (jsonableGo h fuel) sn
                (l.map (fun kv => (kv.1, JVal.ref kv.2)))).map
                (fun x => (JsonV.obj x.1, x.2))
            | none => some (.str (strOf h r), sn)
          match to_dict with
          | some (some r2) =>
            (match jsonableGo h fuel sn (.ref r2) with
             | some res => some res
             | none => viaDict)
          | _ => viaDict

/-- `LogModel.jsonable(value)` from the top: `_seen` starts empty and is
discarded on return. -/
def jsonable (h : Heap) (fuel : Nat) (r : Ref) : Option JsonV :=
  (jsonableGo h fuel [] (.ref r)).map Prod.fst

/-! ## SafeJsonFormatter.add_fields
(src/py_ia_rom_logger/helpers/formatters/file_json_formatter.py)

Only the fields this formatter itself injects are embedded (the standard
fields filled by the base `JsonFormatter` pass through unchanged).
`record.args` is `None`, the positional-argument tuple, or a single
mapping; truthiness follows Python (`None` and empty containers are
falsy). -/

/-- `_sanitize_str`: strip emojis, then force UTF-8 with
`backslashreplace`.  Lean strings are valid Unicode, on which the
encode/decode round-trip is the identity. -/
def sanitize_str (s : String) : String :=
  strip_emojis (some s)

/-- Truthiness of `record.args`. -/
def argsTruthy (h : Heap) : Option Ref → Bool
  | none => false
  | some r =>
    match h r with
    | .seq [] => false
    | .dict [] => false
    | _ => true

structure LogRecordIn where
  msg : String
  args : Option Ref
  exc_info : Option (Option String × Option String × List FrameSummary)

structure FileRecordOut where
  message : String
  customargs : Option JsonV
  exc_info : Option String
  exc_name : Option String
  exc_message : Option String

/-- `SafeJsonFormatter.add_fields` (the fields it writes itself).  `none`
models the serialization itself exhausting the recursion limit, in which
case the exception leaves `add_fields` (the logging handler's generic
error path is an external collaborator). -/
def add_fields (h : Heap) (fuel : Nat) (tbf : CompactTracebackFormatter)
    (record : LogRecordIn) : Option FileRecordOut :=
  let message := sanitize_str (remove_placeholders record.msg)
  let payload? : Option (Option JsonV) :=
    if argsTruthy h record.args then
      match record.args with
      | some r =>
        (match h r with
         | .seq [e] => jsonable h fuel e
         | _ => jsonable h fuel r).map some
      | none => some none
    else some none
  match payload? with
  | none => none
  | some customargs =>
    match record.exc_info with
    | none => some ⟨message, customargs, none, none, none⟩
    | some (ty, vl, tb) =>
      let res := tbf.format ty vl tb
      some ⟨message, customargs, some (sanitize_str res.1),
            some (sanitize_str res.2.1), some (sanitize_str res.2.2)⟩

section SanityChecks

/-- The heap of the test `test_jsonable_prevents_cycles`: a dict whose
value is the dict itself. -/
def cyclicDictHeap : Heap := fun _ => .dict [("self", 0)]

example :
    jsonable cyclicDictHeap 3 0 =
      some (.obj [("self", .str (strOf cyclicDictHeap 0))]) := by rfl

example :
    jsonable (fun r => if r = 0 then .seq [1, 1] else .pyInt 7) 3 0 =
      some (.arr [.int 7, .str "7"]) := by rfl

example :
    jsonable (fun r => if r = 0 then .seq [1, 2] else .pyInt 7) 3 0 =
      some (.arr [.int 7, .int 7]) := by rfl

end SanityChecks

/-! ## Claim theorems -/

/-- Helper: `emojiSub` deletes exactly the `_EMOJI_RE` class characters. -/
theorem emojiSub_eq_filter (cs : List Char) :
    emojiSub cs = cs.filter (fun c => !inEmojiClass c) := by
  induction cs with
  | nil => rfl
  | cons c rest ih =>
    by_cases hc : inEmojiClass c <;> simp [emojiSub, List.filter_cons, hc, ih]

/-- C5 counterexample: the claim requires `strip_emojis` to delete the star
symbol U+2B50, but `_EMOJI_RE` contains no range covering it, so the
character survives. -/
theorem c5_counterexample :
    strip_emojis (some "⭐") = "⭐" ∧ strip_emojis (some "⭐") ≠ "" := by
  exact ⟨rfl, by decide⟩

/-- C5 (amended): `strip_emojis` returns the empty string on `None` or
empty input and otherwise deletes exactly the code points of the six
source ranges U+1F600–1F64F, U+1F300–1F5FF, U+1F680–1F6FF, U+1F1E0–1F1FF,
U+2600–26FF and U+2700–27BF, preserving every other character (so U+2705
is removed, while U+2B50, U+23F0 ∈ U+2300–23FF and U+1F916 ∈
U+1F700–1FAFF are preserved). -/
theorem c5_strip_emojis_ranges :
    strip_emojis none = "" ∧ strip_emojis (some "") = "" ∧
    (∀ s : String, (strip_emojis (some s)).data =
      s.data.filter (fun c => !inEmojiClass c)) ∧
    inEmojiClass '✅' = true ∧ inEmojiClass '😊' = true ∧
    inEmojiClass '⭐' = false ∧ inEmojiClass '⏰' = false ∧
    inEmojiClass '🤖' = false := by
  refine ⟨rfl, rfl, ?_, rfl, rfl, rfl, rfl, rfl⟩
  intro s
  by_cases hs : s = ""
  · subst hs; rfl
  · show (strip_emojis (some s)).data = _
    simp only [strip_emojis, if_neg hs]
    exact emojiSub_eq_filter s.data

/-- C6 counterexample: on `"Processing user %s with ID %d"` the claim
expects `"Processing user with ID"`, but deleting `%s` leaves both of its
surrounding spaces in place, so the result keeps a double space. -/
theorem c6_counterexample :
    remove_placeholders "Processing user %s with ID %d" ≠
      "Processing user with ID" := by
  decide

/-- C6 (amended): `remove_placeholders "Processing user %s with ID %d"`
returns exactly `"Processing user  with ID"` — two spaces where `%s` was
deleted (matches are deleted, internal whitespace is never collapsed, only
leading/trailing whitespace is stripped). -/
theorem c6_strip_placeholders_example :
    remove_placeholders "Processing user %s with ID %d" =
      "Processing user  with ID" := by
  rfl

/-- C9: `format_exception` returns a pair of empty strings (and in
particular does not raise — it is a total function) whenever the exception
triple is absent, equal to `(None, None, None)`, or has any of its three
components `None`. -/
theorem c9_format_exception_empty {α β γ : Type}
    (fm : TracebackRichFormatterM α β γ)
    (ei : Option (Option α × Option β × Option γ))
    (h : ei = none ∨ ∃ t v tb, ei = some (t, v, tb) ∧
          (t = none ∨ v = none ∨ tb = none)) :
    format_exception fm ei = ("", "") := by
  rcases h with rfl | ⟨t, v, tb, rfl, h3⟩
  · rfl
  · rcases t with _ | t <;> rcases v with _ | v <;> rcases tb with _ | tb <;>
      first
      | rfl
      | (rcases h3 with h3 | h3 | h3 <;> exact absurd h3 (by simp))

/-- C9 witness. -/
theorem c9_format_exception_empty_witness :
    format_exception
      (⟨fun _ _ _ => "body", "title"⟩ : TracebackRichFormatterM String String Nat)
      (some (some "ValueError", none, some 3)) = ("", "") :=
  c9_format_exception_empty _ _
    (Or.inr ⟨some "ValueError", none, some 3, rfl, Or.inr (Or.inl rfl)⟩)

/-- Helper heap for C1: a dataclass instance whose only field refers back
to the instance itself (`n.next = n`). -/
def cyclicDataclassHeap : Heap := fun _ => .dataclass [("next", 0)]

/-- Helper: `dataclasses.asdict` exhausts every recursion budget on the
self-referential dataclass — it has no cycle guard. -/
theorem asdict_cyclic_diverges :
    ∀ fuel, asdictVal cyclicDataclassHeap fuel 0 = none := by
  intro fuel
  induction fuel with
  | zero => rfl
  | succ n ih => simp [asdictVal, cyclicDataclassHeap, ih]

/-- C1 (code bug): on the cyclic value `n` with `n.next = n` built from a
dataclass, `jsonable` fails to return for every recursion budget — the
call `dataclasses.asdict(value)` recurses through the dataclass field with
no cycle guard before the `_seen` check can intervene, so Python raises
`RecursionError` instead of terminating with a string-fallback node as the
claim (and the code's own cycle-guard intent and test) requires. -/
theorem c1_cyclic_dataclass_diverges :
    ∀ fuel, jsonable cyclicDataclassHeap fuel 0 = none := by
  intro fuel
  cases fuel with
  | zero => rfl
  | succ n =>
    simp [jsonable, jsonableGo, cyclicDataclassHeap, asdict_cyclic_diverges n]

/-- Helper heap for C4: a list holding the same `bool` object twice
(`x = True; [x, x]` — in CPython equal small primitives are routinely the
same object). -/
def c4Heap : Heap := fun r => if r = 0 then .seq [1, 1] else .pyBool true

/-- C4 counterexample: the claim says every occurrence of a JSON primitive
is returned unchanged, but `jsonable` registers the identity **before**
the primitive check, so the second occurrence of the same `True` object
comes back as the string `"True"`. -/
theorem c4_counterexample :
    jsonable c4Heap 3 0 = some (.arr [.bool true, .str "True"]) ∧
    jsonable c4Heap 3 0 ≠ some (.arr [.bool true, .bool true]) := by
  have h1 : jsonable c4Heap 3 0 = some (.arr [.bool true, .str "True"]) := rfl
  refine ⟨h1, ?_⟩
  rw [h1]
  simp

/-- C4 (amended): a JSON primitive occurrence is returned unchanged
provided its object identity has not been seen earlier in the same
top-level call; the cycle guard registers every identity (primitives
included) before the type dispatch, so an already-seen identity — even a
primitive one — is replaced by its string representation. -/
theorem c4_primitive_guard (h : Heap) (fuel : Nat) (seen : List Ref) (r : Ref) :
    (r ∉ seen →
      (h r = .pyNone →
        jsonableGo h (fuel + 1) seen (.ref r) = some (.null, r :: seen)) ∧
      (∀ s, h r = .pyStr s →
        jsonableGo h (fuel + 1) seen (.ref r) = some (.str s, r :: seen)) ∧
      (∀ n, h r = .pyInt n →
        jsonableGo h (fuel + 1) seen (.ref r) = some (.int n, r :: seen)) ∧
      (∀ b, h r = .pyBool b →
        jsonableGo h (fuel + 1) seen (.ref r) = some (.bool b, r :: seen))) ∧
    (r ∈ seen →
      jsonableGo h (fuel + 1) seen (.ref r) = some (.str (strOf h r), seen)) := by
  constructor
  · intro hns
    refine ⟨?_, ?_, ?_, ?_⟩
    · intro hr; simp [jsonableGo, hns, hr]
    · intro s hr; simp [jsonableGo, hns, hr]
    · intro n hr; simp [jsonableGo, hns, hr]
    · intro b hr; simp [jsonableGo, hns, hr]
  · intro hs; simp [jsonableGo, hs]

/-- C4 witness: first encounter of the `True` object returns it unchanged;
an already-seen identity returns `"True"`. -/
theorem c4_primitive_guard_witness :
    jsonableGo c4Heap 1 [] (.ref 1) = some (.bool true, [1]) ∧
    jsonableGo c4Heap 1 [1] (.ref 1) = some (.str "True", [1]) := by
  constructor
  · exact ((c4_primitive_guard c4Heap 0 [] 1).1 (by decide)).2.2.2 true rfl
  · have hs : (1 : Ref) ∈ [(1 : Ref)] := by decide
    have := (c4_primitive_guard c4Heap 0 [1] 1).2 hs
    simpa using this

/-- C10: constructing the compact formatter with `max_frames = 0` disables
truncation — the falsy limit keeps the whole frame list, so every
non-empty stack yields exactly one line per frame (not zero lines). -/
theorem c10_zero_maxframes_full_stack (base : String) (ty ms : Option String)
    (tb : List FrameSummary) (h : tb ≠ []) :
    ∃ lines : List String,
      (CompactTracebackFormatter.mk 0 base).format ty ms tb =
        (joinNlSpace lines, ty.getD "", ms.getD "") ∧
      lines.length = tb.length ∧ lines ≠ [] := by
  refine ⟨tb.dropLast.map (compactFrameLine ⟨0, base⟩) ++
      [compactLastLine ⟨0, base⟩ (tb.getLast h)], ?_, ?_, by simp⟩
  · simp only [CompactTracebackFormatter.format, ne_eq, not_true_eq_false,
      if_false, List.getLast?_eq_getLast _ h]
  · have : tb.length ≠ 0 := fun h0 => h (List.eq_nil_of_length_eq_zero h0)
    simp [List.length_dropLast]
    omega

/-- C10 witness. -/
theorem c10_zero_maxframes_full_stack_witness :
    ∃ lines : List String,
      (CompactTracebackFormatter.mk 0 "/app").format (some "E") (some "m")
        [⟨"/app/a.py", 3, "f", some "x = 1"⟩, ⟨"/app/b.py", 7, "g", none⟩] =
        (joinNlSpace lines, (some "E").getD "", (some "m").getD "") ∧
      lines.length =
        [⟨"/app/a.py", 3, "f", some "x = 1"⟩,
         (⟨"/app/b.py", 7, "g", none⟩ : FrameSummary)].length ∧
      lines ≠ [] :=
  c10_zero_maxframes_full_stack "/app" (some "E") (some "m") _ (by simp)

/-- C7: with `max_frames = m ≥ 1` the compact summary is exactly
`min n m` lines joined by `"\n "` — the innermost `min n m` frames
(truncated from the oldest end, i.e. `tb.drop (n - m)`), every line but
the last a `compactFrameLine` and the last the quote-escaped source-text
line — and with zero frames the summary is empty while the exception type
name and message are still returned. -/
theorem c7_compact_format (m : Nat) (hm : 1 ≤ m) (base : String)
    (ty ms : Option String) (tb : List FrameSummary) :
    ∃ lines : List String,
      (CompactTracebackFormatter.mk m base).format ty ms tb =
        (joinNlSpace lines, ty.getD "", ms.getD "") ∧
      lines.length = min tb.length m ∧
      (∀ hk : tb.drop (tb.length - m) ≠ [],
        lines = (tb.drop (tb.length - m)).dropLast.map
            (compactFrameLine ⟨m, base⟩) ++
          [compactLastLine ⟨m, base⟩ ((tb.drop (tb.length - m)).getLast hk)]) ∧
      (tb = [] → lines = []) := by
  have hm0 : (CompactTracebackFormatter.mk m base).max_frames ≠ 0 := by
    simp only [CompactTracebackFormatter.max_frames]; omega
  rcases eq_or_ne tb [] with rfl | htb
  · refine ⟨[], ?_, by simp, ?_, fun _ => rfl⟩
    · simp [CompactTracebackFormatter.format, hm0]
    · intro hk; exact absurd (by simp) hk
  · have hlen : 1 ≤ tb.length := List.length_pos.mpr htb
    have hk : tb.drop (tb.length - m) ≠ [] := by
      intro h0
      have := congrArg List.length h0
      simp only [List.length_drop, List.length_nil] at this
      omega
    refine ⟨(tb.drop (tb.length - m)).dropLast.map (compactFrameLine ⟨m, base⟩) ++
        [compactLastLine ⟨m, base⟩ ((tb.drop (tb.length - m)).getLast hk)],
      ?_, ?_, fun _ => rfl, fun h0 => absurd h0 htb⟩
    · simp only [CompactTracebackFormatter.format, if_pos hm0,
        List.getLast?_eq_getLast _ hk]
    · have hdl : (tb.drop (tb.length - m)).length = tb.length - (tb.length - m) :=
        List.length_drop _ _
      simp only [List.length_append, List.length_map, List.length_dropLast,
        List.length_singleton, hdl]
      omega

/-- C7 witness: `max_frames = 2` on a 5-frame stack. -/
theorem c7_compact_format_witness :
    ∃ lines : List String,
      (CompactTracebackFormatter.mk 2 "/app").format (some "ZeroDivisionError")
          (some "division by zero")
          [⟨"/app/a.py", 1, "f1", none⟩, ⟨"/app/a.py", 2, "f2", none⟩,
           ⟨"/app/a.py", 3, "f3", none⟩, ⟨"/app/a.py", 4, "f4", none⟩,
           ⟨"/app/a.py", 5, "f5", some "r = 10 / 0"⟩] =
        (joinNlSpace lines, (some "ZeroDivisionError").getD "",
          (some "division by zero").getD "") ∧
      lines.length = min 5 2 ∧
      (∀ hk : ([⟨"/app/a.py", 1, "f1", none⟩, ⟨"/app/a.py", 2, "f2", none⟩,
           ⟨"/app/a.py", 3, "f3", none⟩, ⟨"/app/a.py", 4, "f4", none⟩,
           (⟨"/app/a.py", 5, "f5", some "r = 10 / 0"⟩ : FrameSummary)].drop
             (5 - 2)) ≠ [],
        lines = (([⟨"/app/a.py", 1, "f1", none⟩, ⟨"/app/a.py", 2, "f2", none⟩,
           ⟨"/app/a.py", 3, "f3", none⟩, ⟨"/app/a.py", 4, "f4", none⟩,
           (⟨"/app/a.py", 5, "f5", some "r = 10 / 0"⟩ : FrameSummary)].drop
             (5 - 2)).dropLast.map (compactFrameLine ⟨2, "/app"⟩)) ++
          [compactLastLine ⟨2, "/app"⟩
            (([⟨"/app/a.py", 1, "f1", none⟩, ⟨"/app/a.py", 2, "f2", none⟩,
           ⟨"/app/a.py", 3, "f3", none⟩, ⟨"/app/a.py", 4, "f4", none⟩,
           (⟨"/app/a.py", 5, "f5", some "r = 10 / 0"⟩ : FrameSummary)].drop
             (5 - 2)).getLast hk)]) ∧
      ([⟨"/app/a.py", 1, "f1", none⟩, ⟨"/app/a.py", 2, "f2", none⟩,
           ⟨"/app/a.py", 3, "f3", none⟩, ⟨"/app/a.py", 4, "f4", none⟩,
           (⟨"/app/a.py", 5, "f5", some "r = 10 / 0"⟩ : FrameSummary)] =
          ([] : List FrameSummary) → lines = []) :=
  c7_compact_format 2 (by decide) "/app" (some "ZeroDivisionError")
    (some "division by zero") _

/-- Helper heap for C8: `record.args = ("John",)`-style single-argument
tuple (ref 0 is the tuple, ref 1 the string argument). -/
def c8SingleHeap (s : String) : Heap :=
  fun r => if r = 0 then .seq [1] else .pyStr s

/-- Helper heap for C8: `record.args = ("John", 123)`-style two-argument
tuple. -/
def c8PairHeap (s : String) (n : Int) : Heap :=
  fun r => if r = 0 then .seq [1, 2] else if r = 1 then .pyStr s else .pyInt n

/-- C8: the JSON file record carries `customargs` exactly when
`record.args` is truthy; a one-element tuple is stored unwrapped (a single
string argument `s` yields `customargs = s`), and two arguments `(s, n)`
yield the serialized sequence `[s, n]`. -/
theorem c8_customargs :
    (∀ (h : Heap) (fuel : Nat) (tbf : CompactTracebackFormatter)
        (record : LogRecordIn) (out : FileRecordOut),
      add_fields h fuel tbf record = some out →
        (out.customargs.isSome ↔ argsTruthy h record.args = true)) ∧
    (∀ (s : String) (tbf : CompactTracebackFormatter),
      add_fields (c8SingleHeap s) 2 tbf ⟨"", some 0, none⟩ =
        some ⟨"", some (.str s), none, none, none⟩) ∧
    (∀ (s : String) (n : Int) (tbf : CompactTracebackFormatter),
      add_fields (c8PairHeap s n) 3 tbf ⟨"", some 0, none⟩ =
        some ⟨"", some (.arr [.str s, .int n]), none, none, none⟩) := by
  refine ⟨?_, fun s tbf => rfl, fun s n tbf => rfl⟩
  intro h fuel tbf record out hout
  simp only [add_fields] at hout
  by_cases hT : argsTruthy h record.args = true
  · rw [if_pos hT] at hout
    cases harg : record.args with
    | none => rw [harg] at hT; simp [argsTruthy] at hT
    | some r =>
      rw [harg] at hout hT
      dsimp only at hout
      cases hj : (match h r with
        | .seq [e] => jsonable h fuel e
        | _ => jsonable h fuel r) with
      | none => rw [hj] at hout; simp at hout
      | some j =>
        rw [hj] at hout
        cases hexc : record.exc_info with
        | none =>
          rw [hexc] at hout
          simp only [Option.map_some'] at hout
          obtain rfl := (Option.some.inj hout).symm
          simp [hT]
        | some tri =>
          obtain ⟨ty, vl, tb⟩ := tri
          rw [hexc] at hout
          simp only [Option.map_some'] at hout
          obtain rfl := (Option.some.inj hout).symm
          simp [hT]
  · rw [if_neg hT] at hout
    cases hexc : record.exc_info with
    | none =>
      rw [hexc] at hout
      obtain rfl := (Option.some.inj hout).symm
      simp [hT]
    | some tri =>
      obtain ⟨ty, vl, tb⟩ := tri
      rw [hexc] at hout
      obtain rfl := (Option.some.inj hout).symm
      simp [hT]

/-- C8 witness: the claim's own example — single argument `"John"` stored
unwrapped, arguments `("John", 123)` stored as the serialized sequence,
and the presence-iff at the single-argument record. -/
theorem c8_customargs_witness :
    add_fields (c8SingleHeap "John") 2 ⟨8, "/app"⟩ ⟨"", some 0, none⟩ =
      some ⟨"", some (.str "John"), none, none, none⟩ ∧
    add_fields (c8PairHeap "John" 123) 3 ⟨8, "/app"⟩ ⟨"", some 0, none⟩ =
      some ⟨"", some (.arr [.str "John", .int 123]), none, none, none⟩ ∧
    ((some (JsonV.str "John")).isSome ↔
      argsTruthy (c8SingleHeap "John") (some 0) = true) :=
  ⟨c8_customargs.2.1 "John" ⟨8, "/app"⟩,
   c8_customargs.2.2 "John" 123 ⟨8, "/app"⟩,
   c8_customargs.1 (c8SingleHeap "John") 2 ⟨8, "/app"⟩ ⟨"", some 0, none⟩
     ⟨"", some (.str "John"), none, none, none⟩
     (c8_customargs.2.1 "John" ⟨8, "/app"⟩)⟩

/-- Helper: `globLogs` commutes with any other filter of the directory. -/
theorem globLogs_filter (p : FileEntry → Bool) (l : List FileEntry) :
    globLogs (l.filter p) = (globLogs l).filter p := by
  simp only [globLogs, List.filter_filter]
  exact List.filter_congr (fun x _ => by rw [Bool.and_comm])

/-- Helper: the shape of `cleanup_old_files` in its deleting branch. -/
theorem cleanup_old_files_eq (entries : List FileEntry) (m : Nat)
    (f : String → Bool) (hm : m ≤ (globLogs entries).length) :
    cleanup_old_files (some entries) m f =
      some (entries.filter (fun e =>
        !((delete_files (List.insertionSort mtimeLE (globLogs entries))
            ((globLogs entries).length - m + 1) f).any
          (fun d => d.name == e.name)))) := by
  have hlen : (List.insertionSort mtimeLE (globLogs entries)).length =
      (globLogs entries).length :=
    (List.perm_insertionSort mtimeLE (globLogs entries)).length_eq
  simp only [cleanup_old_files, hlen]
  rw [if_pos hm]

/-- Helper: with distinct file names, the log files kept by the deleting
branch are a permutation of the sorted list minus its first `k` files. -/
theorem cleanup_kept_perm (entries : List FileEntry) (k : Nat)
    (hnames : entries.Pairwise (fun a b => a.name ≠ b.name)) :
    (globLogs (entries.filter (fun e =>
      !(((List.insertionSort mtimeLE (globLogs entries)).take k).any
          (fun d => d.name == e.name))))).Perm
    ((List.insertionSort mtimeLE (globLogs entries)).drop k) := by
  set s := List.insertionSort mtimeLE (globLogs entries) with hs
  set p : FileEntry → Bool :=
    fun e => !((s.take k).any (fun d => d.name == e.name)) with hp
  have hperm : s.Perm (globLogs entries) :=
    List.perm_insertionSort mtimeLE (globLogs entries)
  have hgnames : (globLogs entries).Pairwise (fun a b => a.name ≠ b.name) :=
    hnames.sublist (List.filter_sublist entries)
  have hsnames : s.Pairwise (fun a b => a.name ≠ b.name) :=
    (List.Perm.pairwise_iff (fun hab => Ne.symm hab) hperm).mpr hgnames
  have hsplit : (s.take k ++ s.drop k).Pairwise (fun a b => a.name ≠ b.name) := by
    rw [List.take_append_drop]; exact hsnames
  have hcross := (List.pairwise_append.mp hsplit).2.2
  have htake : (s.take k).filter p = [] := by
    refine List.filter_eq_nil_iff.mpr (fun a ha => ?_)
    have hany : (s.take k).any (fun d => d.name == a.name) = true :=
      List.any_eq_true.mpr ⟨a, ha, by simp⟩
    simp [hp, hany]
  have hdrop : (s.drop k).filter p = s.drop k := by
    refine List.filter_eq_self.mpr (fun a ha => ?_)
    have hany : (s.take k).any (fun d => d.name == a.name) = false := by
      by_contra hne
      obtain ⟨d, hd, hdeq⟩ :=
        List.any_eq_true.mp (eq_true_of_ne_false hne)
      exact hcross d hd a ha (by simpa using hdeq)
    simp [hp, hany]
  have h1 : globLogs (entries.filter p) = (globLogs entries).filter p :=
    globLogs_filter p entries
  have h2 : ((globLogs entries).filter p).Perm (s.filter p) :=
    (hperm.filter p).symm
  have h3 : s.filter p = s.drop k := by
    conv_lhs => rw [← List.take_append_drop k s, List.filter_append]
    rw [htake, hdrop, List.nil_append]
  rw [h1, ← h3]
  exact h2

/-- Helper: in the sorted list, with pairwise-distinct modification times,
every file of the removed prefix is strictly older than every kept file. -/
theorem insertionSort_take_drop_lt (L : List FileEntry) (k : Nat)
    (hmt : L.Pairwise (fun a b => a.mtime ≠ b.mtime)) :
    ∀ x ∈ (List.insertionSort mtimeLE L).take k,
      ∀ y ∈ (List.insertionSort mtimeLE L).drop k, x.mtime < y.mtime := by
  set s := List.insertionSort mtimeLE L with hs
  have hsort : s.Sorted mtimeLE := List.sorted_insertionSort mtimeLE L
  have hne : s.Pairwise (fun a b => a.mtime ≠ b.mtime) :=
    (List.Perm.pairwise_iff (fun hab => Ne.symm hab)
      (List.perm_insertionSort mtimeLE L)).mpr hmt
  have h2 : (s.take k ++ s.drop k).Pairwise mtimeLE := by
    rw [List.take_append_drop]; exact hsort
  have h3 : (s.take k ++ s.drop k).Pairwise (fun a b => a.mtime ≠ b.mtime) := by
    rw [List.take_append_drop]; exact hne
  intro x hx y hy
  exact Nat.lt_of_le_of_ne ((List.pairwise_append.mp h2).2.2 x hx y hy)
    ((List.pairwise_append.mp h3).2.2 x hx y hy)

/-- C2 (amended): a directory with 10 `*.log` files and `maxFiles = 5`
keeps exactly **4** files after `cleanup_old_files` (the code deletes
`count - maxFiles + 1 = 6` files to leave room for one new file), and the
kept files are the 4 most recently modified: every removed log file is
strictly older than every kept one. -/
theorem c2_retention_keeps_four (entries : List FileEntry)
    (hcount : (globLogs entries).length = 10)
    (hnames : entries.Pairwise (fun a b => a.name ≠ b.name))
    (hmt : (globLogs entries).Pairwise (fun a b => a.mtime ≠ b.mtime)) :
    ∃ l, cleanup_old_files (some entries) 5 (fun _ => false) = some l ∧
      (globLogs l).length = 4 ∧
      ∀ e ∈ globLogs entries, e ∉ globLogs l →
        ∀ kp ∈ globLogs l, e.mtime < kp.mtime := by
  have hm : 5 ≤ (globLogs entries).length := by omega
  have heq := cleanup_old_files_eq entries 5 (fun _ => false) hm
  have hdel : delete_files (List.insertionSort mtimeLE (globLogs entries))
      ((globLogs entries).length - 5 + 1) (fun _ => false) =
      (List.insertionSort mtimeLE (globLogs entries)).take 6 := by
    rw [hcount]
    simp [delete_files]
  rw [hdel] at heq
  have hkept := cleanup_kept_perm entries 6 hnames
  have hslen : (List.insertionSort mtimeLE (globLogs entries)).length =
      (globLogs entries).length :=
    (List.perm_insertionSort mtimeLE (globLogs entries)).length_eq
  refine ⟨_, heq, ?_, ?_⟩
  · have hlen := hkept.length_eq
    rw [List.length_drop, hslen, hcount] at hlen
    exact hlen
  · intro e he hne kp hkp
    have hkp2 := hkept.mem_iff.mp hkp
    have he2 : e ∈ List.insertionSort mtimeLE (globLogs entries) :=
      (List.perm_insertionSort mtimeLE (globLogs entries)).mem_iff.mpr he
    rw [← List.take_append_drop 6
      (List.insertionSort mtimeLE (globLogs entries))] at he2
    rcases List.mem_append.mp he2 with h6 | h6
    · exact insertionSort_take_drop_lt (globLogs entries) 6 hmt e h6 kp hkp2
    · exact absurd (hkept.mem_iff.mpr h6) hne

/-- C2 witness: ten concrete log files with distinct times. -/
theorem c2_retention_keeps_four_witness :
    ∃ l, cleanup_old_files (some
        [⟨"f0.log", 0⟩, ⟨"f1.log", 1⟩, ⟨"f2.log", 2⟩, ⟨"f3.log", 3⟩,
         ⟨"f4.log", 4⟩, ⟨"f5.log", 5⟩, ⟨"f6.log", 6⟩, ⟨"f7.log", 7⟩,
         ⟨"f8.log", 8⟩, ⟨"f9.log", 9⟩]) 5 (fun _ => false) = some l ∧
      (globLogs l).length = 4 ∧
      ∀ e ∈ globLogs
        [⟨"f0.log", 0⟩, ⟨"f1.log", 1⟩, ⟨"f2.log", 2⟩, ⟨"f3.log", 3⟩,
         ⟨"f4.log", 4⟩, ⟨"f5.log", 5⟩, ⟨"f6.log", 6⟩, ⟨"f7.log", 7⟩,
         ⟨"f8.log", 8⟩, ⟨"f9.log", 9⟩], e ∉ globLogs l →
        ∀ kp ∈ globLogs l, e.mtime < kp.mtime :=
  c2_retention_keeps_four _ (by decide) (by decide) (by decide)

/-- C2 counterexample: on those ten files the claim predicts 5 survivors,
but the code leaves 4. -/
theorem c2_counterexample :
    (cleanup_old_files (some
        [⟨"f0.log", 0⟩, ⟨"f1.log", 1⟩, ⟨"f2.log", 2⟩, ⟨"f3.log", 3⟩,
         ⟨"f4.log", 4⟩, ⟨"f5.log", 5⟩, ⟨"f6.log", 6⟩, ⟨"f7.log", 7⟩,
         ⟨"f8.log", 8⟩, ⟨"f9.log", 9⟩]) 5 (fun _ => false)).map List.length
      = some 4 ∧
    (cleanup_old_files (some
        [⟨"f0.log", 0⟩, ⟨"f1.log", 1⟩, ⟨"f2.log", 2⟩, ⟨"f3.log", 3⟩,
         ⟨"f4.log", 4⟩, ⟨"f5.log", 5⟩, ⟨"f6.log", 6⟩, ⟨"f7.log", 7⟩,
         ⟨"f8.log", 8⟩, ⟨"f9.log", 9⟩]) 5 (fun _ => false)).map List.length
      ≠ some 5 := by
  constructor <;> decide

/-- C3: `cleanup_old_files` is a no-op when the directory is missing or
the `*.log` count is strictly below `maxFiles`; otherwise it deletes
exactly `count - maxFiles + 1` log files — the oldest by modification time
(leaving `maxFiles - 1`) — and a deletion failure is confined to its own
file: under an arbitrary failure pattern the call still returns, every
file whose `unlink` raises `OSError` is silently skipped (it remains), and
every non-failing file of the deletion prefix is still deleted (the rest
is not aborted). -/
theorem c3_cleanup_spec (m : Nat) (hm : 1 ≤ m) (f : String → Bool)
    (entries : List FileEntry)
    (hnames : entries.Pairwise (fun a b => a.name ≠ b.name))
    (hmt : (globLogs entries).Pairwise (fun a b => a.mtime ≠ b.mtime)) :
    cleanup_old_files none m f = none ∧
    ((globLogs entries).length < m →
      cleanup_old_files (some entries) m f = some entries) ∧
    (m ≤ (globLogs entries).length → (∀ nm, f nm = false) →
      ∃ l, cleanup_old_files (some entries) m f = some l ∧
        (globLogs l).length = m - 1 ∧
        (globLogs entries).length - (globLogs l).length =
          (globLogs entries).length - m + 1 ∧
        ∀ e ∈ globLogs entries, e ∉ globLogs l →
          ∀ kp ∈ globLogs l, e.mtime < kp.mtime) ∧
    (m ≤ (globLogs entries).length →
      ∃ l, cleanup_old_files (some entries) m f = some l ∧
        (∀ e ∈ entries, f e.name = true → e ∈ l) ∧
        (∀ e ∈ entries,
          e ∈ (List.insertionSort mtimeLE (globLogs entries)).take
              ((globLogs entries).length - m + 1) →
          f e.name = false → e ∉ l)) := by
  have hslen : (List.insertionSort mtimeLE (globLogs entries)).length =
      (globLogs entries).length :=
    (List.perm_insertionSort mtimeLE (globLogs entries)).length_eq
  refine ⟨rfl, ?_, ?_, ?_⟩
  · intro hlt
    simp only [cleanup_old_files, hslen]
    rw [if_neg (by omega)]
  · intro hle hf
    have heq := cleanup_old_files_eq entries m f hle
    have hdel : delete_files (List.insertionSort mtimeLE (globLogs entries))
        ((globLogs entries).length - m + 1) f =
        (List.insertionSort mtimeLE (globLogs entries)).take
          ((globLogs entries).length - m + 1) := by
      unfold delete_files
      refine List.filter_eq_self.mpr (fun x _ => ?_)
      simp [hf x.name]
    rw [hdel] at heq
    set k := (globLogs entries).length - m + 1 with hk
    have hkept := cleanup_kept_perm entries k hnames
    have hlen := hkept.length_eq
    rw [List.length_drop, hslen] at hlen
    refine ⟨_, heq, ?_, ?_, ?_⟩
    · rw [hlen]; omega
    · rw [hlen]; omega
    · intro e he hne kp hkp
      have hkp2 := hkept.mem_iff.mp hkp
      have he2 : e ∈ List.insertionSort mtimeLE (globLogs entries) :=
        (List.perm_insertionSort mtimeLE (globLogs entries)).mem_iff.mpr he
      rw [← List.take_append_drop k
        (List.insertionSort mtimeLE (globLogs entries))] at he2
      rcases List.mem_append.mp he2 with h6 | h6
      · exact insertionSort_take_drop_lt (globLogs entries) k hmt e h6 kp hkp2
      · exact absurd (hkept.mem_iff.mpr h6) hne
  · intro hle
    have heq := cleanup_old_files_eq entries m f hle
    refine ⟨_, heq, ?_, ?_⟩
    · intro e he hfe
      refine List.mem_filter.mpr ⟨he, ?_⟩
      have hany : (delete_files (List.insertionSort mtimeLE (globLogs entries))
          ((globLogs entries).length - m + 1) f).any
          (fun d => d.name == e.name) = false := by
        by_contra hne
        obtain ⟨d, hd, hdeq⟩ := List.any_eq_true.mp (eq_true_of_ne_false hne)
        simp only [delete_files] at hd
        have hd2 := List.mem_filter.mp hd
        have hdf : f d.name = false := by simpa using hd2.2
        have hde : d.name = e.name := by simpa using hdeq
        rw [hde] at hdf
        rw [hdf] at hfe
        exact Bool.false_ne_true hfe
      simp [hany]
    · intro e _ hpre hfe hmem
      have hd : e ∈ delete_files (List.insertionSort mtimeLE (globLogs entries))
          ((globLogs entries).length - m + 1) f := by
        simp only [delete_files]
        exact List.mem_filter.mpr ⟨hpre, by simp [hfe]⟩
      have hany : (delete_files (List.insertionSort mtimeLE (globLogs entries))
          ((globLogs entries).length - m + 1) f).any
          (fun d => d.name == e.name) = true :=
        List.any_eq_true.mpr ⟨e, hd, by simp⟩
      have hp := (List.mem_filter.mp hmem).2
      simp [hany] at hp

/-- Helper directory for the C3 witness: three log files and one
unrelated file. -/
def c3Entries : List FileEntry :=
  [⟨"a.log", 0⟩, ⟨"b.log", 1⟩, ⟨"c.log", 2⟩, ⟨"d.txt", 5⟩]

/-- C3 witness: the specification holds on the concrete directory both
when every deletion succeeds and when deleting `a.log` (the oldest file of
the deletion prefix) raises `OSError` — the failing file remains while the
non-failing prefix file is still deleted. -/
theorem c3_cleanup_spec_witness :
    (cleanup_old_files none 2 (fun _ => false) = none ∧
     ((globLogs c3Entries).length < 2 →
       cleanup_old_files (some c3Entries) 2 (fun _ => false) = some c3Entries) ∧
     (2 ≤ (globLogs c3Entries).length →
       (∀ nm, (fun _ => false : String → Bool) nm = false) →
       ∃ l, cleanup_old_files (some c3Entries) 2 (fun _ => false) = some l ∧
         (globLogs l).length = 2 - 1 ∧
         (globLogs c3Entries).length - (globLogs l).length =
           (globLogs c3Entries).length - 2 + 1 ∧
         ∀ e ∈ globLogs c3Entries, e ∉ globLogs l →
           ∀ kp ∈ globLogs l, e.mtime < kp.mtime) ∧
     (2 ≤ (globLogs c3Entries).length →
       ∃ l, cleanup_old_files (some c3Entries) 2 (fun _ => false) = some l ∧
         (∀ e ∈ c3Entries,
           (fun _ => false : String → Bool) e.name = true → e ∈ l) ∧
         (∀ e ∈ c3Entries,
           e ∈ (List.insertionSort mtimeLE (globLogs c3Entries)).take
               ((globLogs c3Entries).length - 2 + 1) →
           (fun _ => false : String → Bool) e.name = false → e ∉ l))) ∧
    (cleanup_old_files none 2 (fun nm => nm == "a.log") = none ∧
     ((globLogs c3Entries).length < 2 →
       cleanup_old_files (some c3Entries) 2 (fun nm => nm == "a.log") =
         some c3Entries) ∧
     (2 ≤ (globLogs c3Entries).length →
       (∀ nm, (fun nm => nm == "a.log" : String → Bool) nm = false) →
       ∃ l, cleanup_old_files (some c3Entries) 2 (fun nm => nm == "a.log") =
           some l ∧
         (globLogs l).length = 2 - 1 ∧
         (globLogs c3Entries).length - (globLogs l).length =
           (globLogs c3Entries).length - 2 + 1 ∧
         ∀ e ∈ globLogs c3Entries, e ∉ globLogs l →
           ∀ kp ∈ globLogs l, e.mtime < kp.mtime) ∧
     (2 ≤ (globLogs c3Entries).length →
       ∃ l, cleanup_old_files (some c3Entries) 2 (fun nm => nm == "a.log") =
           some l ∧
         (∀ e ∈ c3Entries,
           (fun nm => nm == "a.log" : String → Bool) e.name = true → e ∈ l) ∧
         (∀ e ∈ c3Entries,
           e ∈ (List.insertionSort mtimeLE (globLogs c3Entries)).take
               ((globLogs c3Entries).length - 2 + 1) →
           (fun nm => nm == "a.log" : String → Bool) e.name = false →
             e ∉ l))) :=
  ⟨c3_cleanup_spec 2 (by decide) (fun _ => false) c3Entries (by decide)
     (by decide),
   c3_cleanup_spec 2 (by decide) (fun nm => nm == "a.log") c3Entries (by decide)
     (by decide)⟩
